import Mathlib

/-!
# Verification of `local_areas.py` (location_generator_script)

Shallow embedding of the resolution-and-resilience core of
`src/local-area-generator/local_areas.py`:

* the scoring function `score_candidate` (lines 280-307),
* the no-guess resolver `resolve_town_no_guess` (lines 310-350),
* the multi-endpoint Overpass executor `overpass_post` (lines 131-189),
* the child-place dedupe/sort step `dedupe_and_sort` (lines 470-481),
* the Wikipedia enrichment adapter `wiki_opensearch` (lines 431-455).

Network calls are modelled by passing the observed responses as explicit
arguments (the Nominatim candidate list, the Overpass fallback matches, the
per-attempt HTTP responses).  Python strings are modelled by `String`;
Python's `in` substring test, `.lower()` and `.strip()` are modelled on the
underlying character lists.  `lat`/`lon` are carried opaquely as `Int`
(the modelled code never computes with them, it only stores and returns
them).  Python's stable `sorted`/`list.sort` is modelled by the stable
`List.insertionSort`.
-/

namespace LocalAreas

/-- Dataclass `TownInput` (lines 67-71): one input row. -/
structure TownInput where
  town : String
  county_or_region : String
  country : String
deriving DecidableEq, Repr

/-- Dataclass `Candidate` (lines 74-82): a normalized Nominatim result.
`class_`/`type_` keep the Python field names. -/
structure Candidate where
  display_name : String
  osm_type : String
  osm_id : Int
  class_ : String
  type_ : String
  lat : Int
  lon : Int
deriving DecidableEq, Repr

/-- Python `str.lower()` on one character (the modelled code only compares
ASCII tag values and ASCII-ish place names). -/
def charLower (c : Char) : Char :=
  if 65 ≤ c.toNat ∧ c.toNat ≤ 90 then Char.ofNat (c.toNat + 32) else c

/-- Python `str.lower()`. -/
def pyLower (s : String) : String := ⟨s.data.map charLower⟩

/-- ASCII whitespace, the characters Python's default `str.strip()` removes. -/
def isSpaceChar (c : Char) : Bool :=
  c == ' ' || c == '\t' || c == '\n' || c == '\r' || c.toNat == 11 || c.toNat == 12

/-- Python `str.strip()`: drop whitespace from both ends. -/
def pyStrip (s : String) : String :=
  ⟨((s.data.dropWhile isSpaceChar).reverse.dropWhile isSpaceChar).reverse⟩

/-- Codepoint-lexicographic `≤` on character lists, Python's string order. -/
def chListLe : List Char → List Char → Bool
  | [], _ => true
  | _ :: _, [] => false
  | a :: as, b :: bs =>
    if a.toNat < b.toNat then true
    else if b.toNat < a.toNat then false
    else chListLe as bs

/-- Python `a <= b` on strings. -/
def pyStrLe (a b : String) : Bool := chListLe a.data b.data

/-- Python `needle in hay` on character lists: some prefix position matches. -/
def listContainsSub (needle : List Char) : List Char → Bool
  | [] => needle.isEmpty
  | c :: rest => needle.isPrefixOf (c :: rest) || listContainsSub needle rest

/-- Python `needle in hay` for strings (substring containment). -/
def strContains (hay needle : String) : Bool :=
  listContainsSub needle.toList hay.toList

/-- Constant `COUNTRY_CODES` (line 55). -/
def COUNTRY_CODES : String := "gb"

/-- Function `score_candidate` (lines 280-307), keeping the sequential accumulation
of the Python source: start from 0 and apply each conditional bump in order. -/
def score_candidate (c : Candidate) (t : TownInput) : Int :=
  let dn := pyLower c.display_name
  let s : Int := 0
  -- Prefer relations (lines 285-288)
  let s := if c.osm_type ≠ "relation" then s - 5 else s + 2
  -- Strong preference for administrative boundaries (lines 291-294)
  let s := if c.class_ = "boundary" then s + 6 else s
  let s := if c.type_ = "administrative" then s + 6 else s
  -- Context matches (lines 297-302); `t.town and ...` = Python truthiness
  let s := if t.town ≠ "" ∧ strContains dn (pyLower t.town) then s + 2 else s
  let s := if t.county_or_region ≠ "" ∧ strContains dn (pyLower t.county_or_region)
    then s + 2 else s
  let s := if t.country ≠ "" ∧ strContains dn (pyLower t.country) then s + 1 else s
  let s := if strContains dn "borough" then s + 1 else s
  s

/-- The filter of line 314-317: relation + boundary + administrative. -/
def is_admin_rel (c : Candidate) : Bool :=
  c.osm_type == "relation" && c.class_ == "boundary" && c.type_ == "administrative"

/-- Descending-by-score order on scored pairs, as used by
`sorted(..., key=lambda x: x[0], reverse=True)` (lines 323, 343). -/
def scoreGe (a b : Int × Candidate) : Prop := b.1 ≤ a.1

instance : DecidableRel scoreGe := fun a b => inferInstanceAs (Decidable (b.1 ≤ a.1))

instance : IsTotal (Int × Candidate) scoreGe := ⟨fun a b => le_total b.1 a.1⟩

instance : IsTrans (Int × Candidate) scoreGe :=
  ⟨fun _ _ _ h h' => le_trans h' h⟩

/-- The expression `sorted(((score_candidate(c, t), c) for c in l), key=lambda x: x[0], reverse=True)`
of lines 323 and 343: stable descending sort of the scored pairs. -/
def sortByScoreDesc (t : TownInput) (l : List Candidate) : List (Int × Candidate) :=
  (l.map fun c => (score_candidate c t, c)).insertionSort scoreGe

/-- The candidate synthesized from a unique Overpass fallback match
(lines 332-340). -/
def uk_fallback_candidate (rid : Int) (nm : String) : Candidate :=
  { display_name := nm ++ ", United Kingdom"
    osm_type := "relation"
    osm_id := rid
    class_ := "boundary"
    type_ := "administrative"
    lat := 0
    lon := 0 }

/-- Step 3 of the resolver (lines 329-340): a unique `(rid, nm)` match from
`overpass_find_uk_admin_relation` is turned into a synthetic candidate. -/
def uniqueUkMatch (ms : List (Int × String)) : Option Candidate :=
  match ms with
  | [(rid, nm)] => some (uk_fallback_candidate rid nm)
  | _ => none

/-- Lines 322-325: when several admin boundary relations remain, pick the
top-scored one only if its score strictly exceeds the runner-up's. -/
def resolveStep2 (t : TownInput) (admin_rels : List Candidate) : Option Candidate :=
  if admin_rels.length > 1 then
    match sortByScoreDesc t admin_rels with
    | a :: b :: _ => if a.1 > b.1 then some a.2 else none
    | _ => none
  else none

/-- Lines 328-340: the UK Overpass fallback, guarded by
`(COUNTRY_CODES or "").lower() == "gb"`. -/
def resolveStep3 (ukMatches : List (Int × String)) : Option Candidate :=
  if pyLower COUNTRY_CODES = "gb" then uniqueUkMatch ukMatches else none

/-- Function `resolve_town_no_guess` (lines 310-350).  The Nominatim result list and
the Overpass fallback matches are passed in as arguments (they are the data
the two network calls of the source produce). -/
def resolve_town_no_guess (t : TownInput) (candidates : List Candidate)
    (ukMatches : List (Int × String)) : Option Candidate × List Candidate :=
  -- First: unique admin boundary relation from Nominatim list (lines 314-319)
  let admin_rels := candidates.filter is_admin_rel
  if admin_rels.length = 1 then
    (admin_rels.head?, candidates)
  else
    match resolveStep2 t admin_rels with
    | some c => (some c, candidates)
    | none =>
      match resolveStep3 ukMatches with
      | some c => (some c, candidates)
      | none =>
        -- Final fallback: threshold filter on all candidates (lines 342-350)
        let scored_all := sortByScoreDesc t candidates
        let passing := scored_all.filter fun p => p.1 ≥ 10
        match passing with
        | [p] => (some p.2, candidates)
        | p :: q :: _ => if p.1 > q.1 then (some p.2, candidates) else (none, candidates)
        | [] => (none, candidates)

/-! ## Child-place pipeline (lines 458-481) -/

/-- One extracted `{"name": ..., "place": ...}` dict (lines 458-467). -/
structure ChildPlace where
  name : String
  place : String
deriving DecidableEq, Repr

/-- Table `PLACE_RANK` (line 61) read through `.get(place, 99)` (line 480). -/
def PLACE_RANK (p : String) : Nat :=
  if p = "suburb" then 1
  else if p = "neighbourhood" then 2
  else if p = "quarter" then 3
  else if p = "village" then 4
  else if p = "hamlet" then 5
  else 99

/-- The dedup key of line 474: `c["name"].strip().lower()`. -/
def childKey (c : ChildPlace) : String := pyLower (pyStrip c.name)

/-- The for-loop of lines 472-478: keep a child only when its key was not
seen before; `seen` collects the keys of the kept prefix. -/
def dedupeLoop : List ChildPlace → List String → List ChildPlace
  | [], _ => []
  | c :: rest, seen =>
    if childKey c ∈ seen then dedupeLoop rest seen
    else c :: dedupeLoop rest (childKey c :: seen)

/-- The sort key of line 480: `(PLACE_RANK.get(c["place"], 99), c["name"].lower())`,
compared ascending and lexicographically. -/
def childLe (a b : ChildPlace) : Prop :=
  PLACE_RANK a.place < PLACE_RANK b.place ∨
    (PLACE_RANK a.place = PLACE_RANK b.place ∧
      pyStrLe (pyLower a.name) (pyLower b.name) = true)

instance : DecidableRel childLe := fun a b =>
  inferInstanceAs (Decidable (PLACE_RANK a.place < PLACE_RANK b.place ∨
    (PLACE_RANK a.place = PLACE_RANK b.place ∧
      pyStrLe (pyLower a.name) (pyLower b.name) = true)))

/-- Function `dedupe_and_sort` (lines 470-481): first-occurrence dedup by
lowercase-stripped name, then Python's stable ascending sort by
`(place rank, lowercase name)`. -/
def dedupe_and_sort (children : List ChildPlace) : List ChildPlace :=
  (dedupeLoop children []).insertionSort childLe

/-! ## Overpass executor `overpass_post` (lines 131-189) -/

/-- An HTTP response as `overpass_post` inspects it: the status code, the
optional parsed `Retry-After` header (digits only; used just for sleeping),
and the result of `r.json()` (`.error` = the JSON parse exception). -/
structure HttpResp (α ε : Type) where
  status_code : Nat
  retry_after : Option Nat
  body : Except ε α
deriving Repr

/-- The exceptions `overpass_post` can record in `last_err`: a transport
failure from `requests.post`, the `HTTPError` of `raise_for_status`, or a
JSON parse failure. -/
inductive AttemptError (ε : Type) where
  | transport (e : ε)
  | httpStatus (code : Nat)
  | parse (e : ε)
deriving DecidableEq, Repr

/-- Result of `overpass_post`: the parsed body, or the `RuntimeError` of
line 189 carrying `last_err` (which is `None` when no exception was
recorded, e.g. when every attempt was a 429/5xx status). -/
inductive OverpassResult (α ε : Type) where
  | ok (v : α)
  | exhaustedRetries (lastErr : Option (AttemptError ε))
deriving DecidableEq, Repr

/-- One attempt of lines 147-179, classified: `none` = success with a
parsed body, `some upd` = failure together with the update it applies to
`last_err` (429 and 502/503/504 leave `last_err` unchanged; transport,
`raise_for_status` — which fires for statuses in `[400, 600)` other than
the ones already handled — and JSON parse failures overwrite it). -/
def attemptSucceeds {α ε : Type} (resp : Except ε (HttpResp α ε)) : Bool :=
  match resp with
  | .error _ => false
  | .ok r =>
    if r.status_code == 429 then false
    else if r.status_code == 502 || r.status_code == 503 || r.status_code == 504 then false
    else if 400 ≤ r.status_code ∧ r.status_code < 600 then false
    else match r.body with
      | .ok _ => true
      | .error _ => false

/-- The value a successful attempt returns (line 170). -/
def attemptValue {α ε : Type} (resp : Except ε (HttpResp α ε)) : Option α :=
  match resp with
  | .error _ => none
  | .ok r =>
    if r.status_code == 429 then none
    else if r.status_code == 502 || r.status_code == 503 || r.status_code == 504 then none
    else if 400 ≤ r.status_code ∧ r.status_code < 600 then none
    else match r.body with
      | .ok v => some v
      | .error _ => none

/-- The error a failing attempt records into `last_err`, if any: `none` for
429 and 502/503/504 (lines 151-164 record nothing), `some _` for transport
exceptions (line 176-177), `raise_for_status` (line 166) and JSON parse
failures (lines 169-174). -/
def attemptRecordedError {α ε : Type} (resp : Except ε (HttpResp α ε)) :
    Option (AttemptError ε) :=
  match resp with
  | .error e => some (.transport e)
  | .ok r =>
    if r.status_code == 429 then none
    else if r.status_code == 502 || r.status_code == 503 || r.status_code == 504 then none
    else if 400 ≤ r.status_code ∧ r.status_code < 600 then some (.httpStatus r.status_code)
    else match r.body with
      | .ok _ => none
      | .error e => some (.parse e)

/-- The inner `for url in OVERPASS_URLS` loop (lines 146-179) over the
remaining endpoint indices, threading `last_err` and the number of
`requests.post` calls made.  Returns `(success value?, last_err, calls)`. -/
def tryEndpoints {α ε : Type} (resps : Nat → Except ε (HttpResp α ε)) :
    List Nat → Option (AttemptError ε) → Nat →
    Option α × Option (AttemptError ε) × Nat
  | [], lastErr, n => (none, lastErr, n)
  | i :: rest, lastErr, n =>
    if attemptSucceeds (resps i) then (attemptValue (resps i), lastErr, n + 1)
    else tryEndpoints resps rest
      (match attemptRecordedError (resps i) with
        | some e => some e
        | none => lastErr)
      (n + 1)

/-- The outer `for _round in range(1, 7)` loop (lines 143-187).
`resps round idx` is the observed outcome of posting to endpoint `idx`
during round `round` (rounds counted from 0 here).  When a whole round
fails the code sleeps and backs off (no effect on the returned value); the
`any_progress` flag is `False` exactly when the endpoint list is empty, in
which case the loop breaks and raises (lines 185-189). -/
def overpassLoop {α ε : Type} (resps : Nat → Nat → Except ε (HttpResp α ε))
    (numUrls : Nat) : Nat → Nat → Option (AttemptError ε) → Nat →
    OverpassResult α ε × Nat
  | 0, _, lastErr, count => (.exhaustedRetries lastErr, count)
  | rounds + 1, roundIdx, lastErr, count =>
    match tryEndpoints (resps roundIdx) (List.range numUrls) lastErr count with
    | (some v, _, count') => (.ok v, count')
    | (none, lastErr', count') =>
      if numUrls = 0 then (.exhaustedRetries lastErr', count')
      else overpassLoop resps numUrls rounds (roundIdx + 1) lastErr' count'

/-- Function `overpass_post` (lines 131-189) together with the number of HTTP posts
it makes: 6 rounds, each trying every endpoint once in order. -/
def overpassRun {α ε : Type} (resps : Nat → Nat → Except ε (HttpResp α ε))
    (numUrls : Nat) : OverpassResult α ε × Nat :=
  overpassLoop resps numUrls 6 0 none 0

/-- Function `overpass_post` (lines 131-189): the returned/raised value alone. -/
def overpass_post {α ε : Type} (resps : Nat → Nat → Except ε (HttpResp α ε))
    (numUrls : Nat) : OverpassResult α ε :=
  (overpassRun resps numUrls).1

/-! ## Wikipedia adapter `wiki_opensearch` (lines 431-455) -/

/-- An HTTP response as `wiki_opensearch` inspects it.  `payload` is the
result of `r.json()` plus the `payload[1]`, `payload[3]` extraction: an
`.error` models a JSON parse exception, `.ok none` models an
indexing/shape failure inside the `try`, `.ok (some (titles, urls))` a
well-shaped opensearch reply. -/
structure WikiResp (ε : Type) where
  status_code : Nat
  payload : Except ε (Option (List String × List String))
deriving Repr

/-- Function `wiki_opensearch` (lines 431-455).  The transport outcome is passed in;
every failure path inside the `try` is swallowed into `("", "")`. -/
def wiki_opensearch {ε : Type} (resp : Except ε (WikiResp ε)) : String × String :=
  match resp with
  | .error _ => ("", "")
  | .ok r =>
    if r.status_code == 403 then ("", "")
    else if 400 ≤ r.status_code ∧ r.status_code < 600 then ("", "")
    else match r.payload with
      | .error _ => ("", "")
      | .ok none => ("", "")
      | .ok (some (titles, urls)) =>
        match titles, urls with
        | t :: _, u :: _ => (t, u)
        | _, _ => ("", "")

/-! ## Spec-side definitions

These follow the wording of the specification (not the code); they are
compared with the code-side definitions above. -/

/-- The scoring rule exactly as the spec states it: a flat sum whose
primary-name term has no non-emptiness condition ("+2 if the request's
primary name occurs as a case-insensitive substring of the candidate
label"), while the region and country terms do ("likewise for a non-empty
… qualifier"). -/
def score_spec (c : Candidate) (t : TownInput) : Int :=
  let dn := pyLower c.display_name
  (if c.osm_type ≠ "relation" then (-5 : Int) else 2)
    + (if c.class_ = "boundary" then 6 else 0)
    + (if c.type_ = "administrative" then 6 else 0)
    + (if strContains dn (pyLower t.town) then 2 else 0)
    + (if t.county_or_region ≠ "" ∧ strContains dn (pyLower t.county_or_region)
        then 2 else 0)
    + (if t.country ≠ "" ∧ strContains dn (pyLower t.country) then 1 else 0)
    + (if strContains dn "borough" then 1 else 0)

/-- The scoring rule as a flat sum with the primary-name term guarded by
non-emptiness, matching the region/country terms — the amendment the code
forces on the spec's wording. -/
def score_amended (c : Candidate) (t : TownInput) : Int :=
  let dn := pyLower c.display_name
  (if c.osm_type ≠ "relation" then (-5 : Int) else 2)
    + (if c.class_ = "boundary" then 6 else 0)
    + (if c.type_ = "administrative" then 6 else 0)
    + (if t.town ≠ "" ∧ strContains dn (pyLower t.town) then 2 else 0)
    + (if t.county_or_region ≠ "" ∧ strContains dn (pyLower t.county_or_region)
        then 2 else 0)
    + (if t.country ≠ "" ∧ strContains dn (pyLower t.country) then 1 else 0)
    + (if strContains dn "borough" then 1 else 0)

/-- First-occurrence deduplication as the spec words it: keep an element
and drop every later element with the same lowercase-trimmed name. -/
def firstOccurrences : List ChildPlace → List ChildPlace
  | [] => []
  | c :: rest =>
    c :: firstOccurrences (rest.filter fun d => childKey d ≠ childKey c)
termination_by l => l.length
decreasing_by simpa using Nat.lt_succ_of_le (List.length_filter_le _ rest)

/-- The attempt sequence of the executor, flattened round-major:
`(round, endpoint)` for 6 rounds over `numUrls` endpoints. -/
def attemptOrder (numUrls : Nat) : List (Nat × Nat) :=
  (List.range 6).flatMap fun r => (List.range numUrls).map fun i => (r, i)

/-- The "last observed error" the spec promises: the last recorded
exception over the whole attempt sequence (rate-limit and transient-server
statuses record none, per the spec's "on transport/parse failure, record
the error"). -/
def lastErrSpec {α ε : Type} (resps : Nat → Nat → Except ε (HttpResp α ε))
    (numUrls : Nat) : Option (AttemptError ε) :=
  (attemptOrder numUrls).foldl
    (fun acc ri =>
      match attemptRecordedError (resps ri.1 ri.2) with
      | some e => some e
      | none => acc)
    none

/-- The value of `last_err` after a list of failing attempts: fold the recorded errors
over the attempted endpoint indices. -/
def foldErrList {α ε : Type} (resps : Nat → Except ε (HttpResp α ε))
    (le : Option (AttemptError ε)) (l : List Nat) : Option (AttemptError ε) :=
  l.foldl
    (fun acc i =>
      match attemptRecordedError (resps i) with
      | some e => some e
      | none => acc)
    le

/-! ## Order facts for the child sort -/

theorem chListLe_total : ∀ a b : List Char, chListLe a b = true ∨ chListLe b a = true
  | [], _ => by left; rfl
  | _ :: _, [] => by right; rfl
  | a :: as, b :: bs => by
    rcases Nat.lt_trichotomy a.toNat b.toNat with h | h | h
    · left; simp [chListLe, h]
    · rcases chListLe_total as bs with ih | ih
      · left; simp [chListLe, h, ih]
      · right; simp [chListLe, h, ih]
    · right; simp [chListLe, h]

theorem chListLe_trans : ∀ a b c : List Char,
    chListLe a b = true → chListLe b c = true → chListLe a c = true
  | [], _, _, _, _ => rfl
  | _ :: _, [], _, h, _ => by simp [chListLe] at h
  | _ :: _, _ :: _, [], _, h => by simp [chListLe] at h
  | a :: as, b :: bs, c :: cs, h₁, h₂ => by
    simp only [chListLe] at h₁ h₂ ⊢
    rcases Nat.lt_trichotomy a.toNat b.toNat with hab | hab | hab
    · rcases Nat.lt_trichotomy b.toNat c.toNat with hbc | hbc | hbc
      · simp [show a.toNat < c.toNat from hab.trans hbc]
      · simp [show a.toNat < c.toNat from hbc ▸ hab]
      · simp [show ¬ b.toNat < c.toNat from by omega, hbc] at h₂
    · rcases Nat.lt_trichotomy b.toNat c.toNat with hbc | hbc | hbc
      · simp [show a.toNat < c.toNat from hab ▸ hbc]
      · have h₁' : chListLe as bs = true := by
          simpa [show ¬ a.toNat < b.toNat from by omega,
            show ¬ b.toNat < a.toNat from by omega] using h₁
        have h₂' : chListLe bs cs = true := by
          simpa [show ¬ b.toNat < c.toNat from by omega,
            show ¬ c.toNat < b.toNat from by omega] using h₂
        simpa [show ¬ a.toNat < c.toNat from by omega,
          show ¬ c.toNat < a.toNat from by omega] using
          chListLe_trans as bs cs h₁' h₂'
      · simp [show ¬ b.toNat < c.toNat from by omega, hbc] at h₂
    · simp [show ¬ a.toNat < b.toNat from by omega, hab] at h₁

instance : IsTotal ChildPlace childLe := by
  constructor
  intro a b
  rcases Nat.lt_trichotomy (PLACE_RANK a.place) (PLACE_RANK b.place) with h | h | h
  · exact Or.inl (Or.inl h)
  · rcases chListLe_total (pyLower a.name).data (pyLower b.name).data with h' | h'
    · exact Or.inl (Or.inr ⟨h, h'⟩)
    · exact Or.inr (Or.inr ⟨h.symm, h'⟩)
  · exact Or.inr (Or.inl h)

instance : IsTrans ChildPlace childLe := by
  constructor
  rintro a b c (h₁ | ⟨h₁, h₁'⟩) (h₂ | ⟨h₂, h₂'⟩)
  · exact Or.inl (h₁.trans h₂)
  · exact Or.inl (h₂ ▸ h₁)
  · exact Or.inl (h₁ ▸ h₂)
  · exact Or.inr ⟨h₁.trans h₂, chListLe_trans _ _ _ h₁' h₂'⟩

/-! ## Shared lemmas about the scoring function -/

set_option maxHeartbeats 2000000 in
/-- The sequential accumulation of `score_candidate` equals the flat sum
with a non-emptiness guard on the primary-name term. -/
theorem score_eq_flat (c : Candidate) (t : TownInput) :
    score_candidate c t = score_amended c t := by
  simp only [score_candidate, score_amended]
  split_ifs <;> omega

/-- Every candidate passing the boundary filter scores at least
`2 + 6 + 6 = 14`. -/
theorem admin_score_ge (c : Candidate) (t : TownInput) (h : is_admin_rel c = true) :
    14 ≤ score_candidate c t := by
  simp only [is_admin_rel, Bool.and_eq_true, beq_iff_eq] at h
  obtain ⟨⟨h1, h2⟩, h3⟩ := h
  rw [score_eq_flat]
  simp only [score_amended, h1, h2, h3]
  simp only [ne_eq, not_true_eq_false, if_false, if_true]
  split_ifs <;> omega

/-- Every candidate failing the boundary filter scores at most 14. -/
theorem nonadmin_score_le (c : Candidate) (t : TownInput)
    (h : is_admin_rel c = false) : score_candidate c t ≤ 14 := by
  have h' : c.osm_type ≠ "relation" ∨ c.class_ ≠ "boundary" ∨
      c.type_ ≠ "administrative" := by
    by_contra hc
    push_neg at hc
    simp [is_admin_rel, hc.1, hc.2.1, hc.2.2] at h
  rw [score_eq_flat]
  simp only [score_amended]
  rcases h' with h' | h' | h'
  · rw [if_pos h']
    split_ifs <;> omega
  · have h2 : ¬(c.class_ = "boundary") := h'
    rw [if_neg h2]
    split_ifs <;> omega
  · have h3 : ¬(c.type_ = "administrative") := h'
    rw [if_neg h3]
    split_ifs <;> omega

/-! ## Claim theorems -/

/-- C10: in every outcome, `resolve_town_no_guess` returns the Nominatim
candidate list unchanged as the second component; in particular the
candidate synthesized by the Overpass fallback is never added to it. -/
theorem claim_C10 (t : TownInput) (candidates : List Candidate)
    (ukMatches : List (Int × String)) :
    (resolve_town_no_guess t candidates ukMatches).2 = candidates := by
  simp only [resolve_town_no_guess]
  repeat' split
  all_goals rfl

/-- C2: when exactly one candidate passes the boundary filter
(relation + boundary + administrative), `resolve_town_no_guess` resolves to
it, regardless of every score. -/
theorem claim_C2 (t : TownInput) (candidates : List Candidate)
    (ukMatches : List (Int × String)) (c : Candidate)
    (h : candidates.filter is_admin_rel = [c]) :
    resolve_town_no_guess t candidates ukMatches = (some c, candidates) := by
  unfold resolve_town_no_guess
  rw [h]
  rfl

/-- C2 witness: the "Dudley" scenario — one boundary/administrative
relation among five candidates resolves to that relation. -/
theorem claim_C2_witness :
    [⟨"Dudley, West Midlands, England, United Kingdom", "node", 1, "place", "town", 0, 0⟩,
     ⟨"Dudley, West Midlands, England, United Kingdom", "relation", 2, "boundary",
       "administrative", 0, 0⟩,
     ⟨"Dudley, Tyne and Wear, England, United Kingdom", "node", 3, "place", "village", 0, 0⟩,
     ⟨"Dudley Hill, Bradford, England, United Kingdom", "way", 4, "highway", "residential", 0,
       0⟩,
     ⟨"Dudley Port, Sandwell, England, United Kingdom", "node", 5, "place", "suburb", 0,
       0⟩].filter is_admin_rel =
      [⟨"Dudley, West Midlands, England, United Kingdom", "relation", 2, "boundary",
        "administrative", 0, 0⟩] ∧
    resolve_town_no_guess ⟨"Dudley", "", "United Kingdom"⟩
      [⟨"Dudley, West Midlands, England, United Kingdom", "node", 1, "place", "town", 0, 0⟩,
       ⟨"Dudley, West Midlands, England, United Kingdom", "relation", 2, "boundary",
         "administrative", 0, 0⟩,
       ⟨"Dudley, Tyne and Wear, England, United Kingdom", "node", 3, "place", "village", 0, 0⟩,
       ⟨"Dudley Hill, Bradford, England, United Kingdom", "way", 4, "highway", "residential", 0,
         0⟩,
       ⟨"Dudley Port, Sandwell, England, United Kingdom", "node", 5, "place", "suburb", 0,
         0⟩] [] =
      (some ⟨"Dudley, West Midlands, England, United Kingdom", "relation", 2, "boundary",
        "administrative", 0, 0⟩,
       [⟨"Dudley, West Midlands, England, United Kingdom", "node", 1, "place", "town", 0, 0⟩,
        ⟨"Dudley, West Midlands, England, United Kingdom", "relation", 2, "boundary",
          "administrative", 0, 0⟩,
        ⟨"Dudley, Tyne and Wear, England, United Kingdom", "node", 3, "place", "village", 0, 0⟩,
        ⟨"Dudley Hill, Bradford, England, United Kingdom", "way", 4, "highway", "residential",
          0, 0⟩,
        ⟨"Dudley Port, Sandwell, England, United Kingdom", "node", 5, "place", "suburb", 0,
          0⟩]) :=
  ⟨by decide, claim_C2 _ _ _ _ (by decide)⟩

/-- C9: the Wikipedia adapter swallows every failure: a transport error, an
error HTTP status (403 explicitly, every other status in `[400, 600)` via
`raise_for_status`), a JSON parse error, or a malformed payload all yield
`("", "")`; the adapter is a total function and never propagates a
failure. -/
theorem claim_C9 {ε : Type} (resp : Except ε (WikiResp ε))
    (h : (∃ e, resp = .error e) ∨
      (∃ r, resp = .ok r ∧ 400 ≤ r.status_code ∧ r.status_code < 600) ∨
      (∃ r e, resp = .ok r ∧ r.payload = .error e) ∨
      (∃ r, resp = .ok r ∧ r.payload = .ok none)) :
    wiki_opensearch resp = ("", "") := by
  rcases h with ⟨e, rfl⟩ | ⟨r, rfl, h1, h2⟩ | ⟨r, e, rfl, hp⟩ | ⟨r, rfl, hp⟩
  · rfl
  · simp only [wiki_opensearch]
    by_cases h403 : r.status_code == 403
    · simp [h403]
    · simp [h403, h1, h2]
  · simp only [wiki_opensearch]
    split_ifs <;> simp [hp]
  · simp only [wiki_opensearch]
    split_ifs <;> simp [hp]

/-- C9 witness: a transport failure and a rate-limit status both come back
as the empty pair. -/
theorem claim_C9_witness :
    wiki_opensearch (Except.error "connection reset" :
        Except String (WikiResp String)) = ("", "") ∧
    wiki_opensearch (Except.ok ⟨429, Except.ok (some (["T"], ["U"]))⟩ :
        Except String (WikiResp String)) = ("", "") :=
  ⟨claim_C9 _ (Or.inl ⟨_, rfl⟩),
   claim_C9 _ (Or.inr (Or.inl ⟨_, rfl, by decide, by decide⟩))⟩

/-- C4 counterexample: at the empty primary name the code scores 14 (the
`if t.town and ...` guard fails) while the claimed sum scores 16 (the empty
string is a substring of every label), so `score_candidate` does not equal
the claimed sum everywhere. -/
theorem claim_C4_counterexample :
    score_candidate ⟨"x", "relation", 1, "boundary", "administrative", 0, 0⟩ ⟨"", "", ""⟩ = 14 ∧
    score_spec ⟨"x", "relation", 1, "boundary", "administrative", 0, 0⟩ ⟨"", "", ""⟩ = 16 ∧
    score_candidate ⟨"x", "relation", 1, "boundary", "administrative", 0, 0⟩ ⟨"", "", ""⟩ ≠
      score_spec ⟨"x", "relation", 1, "boundary", "administrative", 0, 0⟩ ⟨"", "", ""⟩ := by
  refine ⟨by decide, by decide, by decide⟩

/-- C4 amended: `score_candidate` equals the claimed sum with the
primary-name term guarded by non-emptiness, exactly like the region and
country terms. -/
theorem claim_C4 (c : Candidate) (t : TownInput) :
    score_candidate c t = score_amended c t :=
  score_eq_flat c t

/-! ## Lemmas for the dedupe/sort step -/

/-- The seen-set loop of `dedupe_and_sort` computes first-occurrence
deduplication of the elements whose key is not yet in `seen`. -/
theorem dedupeLoop_eq_firstOcc :
    ∀ (l : List ChildPlace) (seen : List String),
    dedupeLoop l seen =
      firstOccurrences (l.filter fun c => decide (childKey c ∉ seen))
  | [], seen => by simp [dedupeLoop, firstOccurrences]
  | c :: rest, seen => by
    by_cases hc : childKey c ∈ seen
    · rw [dedupeLoop, if_pos hc, List.filter_cons_of_neg (by simp [hc]),
        dedupeLoop_eq_firstOcc rest seen]
    · rw [dedupeLoop, if_neg hc, List.filter_cons_of_pos (by simp [hc]),
        firstOccurrences, dedupeLoop_eq_firstOcc rest (childKey c :: seen),
        List.filter_filter]
      congr 1
      congr 1
      apply List.filter_congr
      intro d _
      by_cases h1 : childKey d = childKey c <;> by_cases h2 : childKey d ∈ seen <;>
        simp [h1, h2]

/-- The result of `firstOccurrences` is a sublist of its input. -/
theorem firstOccurrences_sublist :
    ∀ l : List ChildPlace, List.Sublist (firstOccurrences l) l
  | [] => by rw [firstOccurrences]
  | c :: rest => by
    rw [firstOccurrences]
    exact ((firstOccurrences_sublist _).trans (List.filter_sublist _)).cons₂ c
termination_by l => l.length
decreasing_by simpa using Nat.lt_succ_of_le (List.length_filter_le _ rest)

/-- The survivors of `firstOccurrences` have pairwise-distinct keys. -/
theorem firstOccurrences_pairwise :
    ∀ l : List ChildPlace,
    (firstOccurrences l).Pairwise fun a b => childKey a ≠ childKey b
  | [] => by rw [firstOccurrences]; exact List.Pairwise.nil
  | c :: rest => by
    rw [firstOccurrences]
    refine List.Pairwise.cons ?_ (firstOccurrences_pairwise _)
    intro b hb
    have hb' : b ∈ rest.filter fun d => decide (childKey d ≠ childKey c) :=
      (firstOccurrences_sublist _).subset hb
    have := List.of_mem_filter hb'
    simp only [decide_eq_true_eq] at this
    exact fun h => this h.symm
termination_by l => l.length
decreasing_by simpa using Nat.lt_succ_of_le (List.length_filter_le _ rest)

/-- A list with pairwise-distinct keys, none already seen, passes through
the dedup loop unchanged. -/
theorem dedupeLoop_eq_self :
    ∀ (l : List ChildPlace) (seen : List String),
    (l.Pairwise fun a b => childKey a ≠ childKey b) →
    (∀ c ∈ l, childKey c ∉ seen) →
    dedupeLoop l seen = l
  | [], _, _, _ => rfl
  | c :: rest, seen, hp, hs => by
    rw [dedupeLoop, if_neg (hs c (List.mem_cons_self c rest))]
    congr 1
    refine dedupeLoop_eq_self rest _ hp.of_cons ?_
    intro d hd
    simp only [List.mem_cons, not_or]
    exact ⟨fun h => List.rel_of_pairwise_cons hp hd h.symm,
      hs d (List.mem_cons_of_mem _ hd)⟩

/-- The `dedupe_and_sort` output is a permutation of the first-occurrence
deduplication of its input. -/
theorem dedupe_and_sort_perm (l : List ChildPlace) :
    (dedupe_and_sort l).Perm (firstOccurrences l) := by
  unfold dedupe_and_sort
  refine (List.perm_insertionSort childLe _).trans ?_
  rw [dedupeLoop_eq_firstOcc]
  have h : (l.filter fun c => decide (childKey c ∉ ([] : List String))) = l := by
    simp
  rw [h]

/-- The `dedupe_and_sort` output is sorted by `(place rank, lowercase name)`. -/
theorem dedupe_and_sort_sorted (l : List ChildPlace) :
    List.Sorted childLe (dedupe_and_sort l) :=
  List.sorted_insertionSort childLe _

/-- C7: `dedupe_and_sort` keeps exactly the first occurrence of each
lowercase-trimmed name (its output is a permutation of the spec-side
`firstOccurrences`), orders the survivors ascending by
`(place-kind rank, lowercase name)` with suburb=1 … hamlet=5, and on the
Blackheath scenario keeps only `{Blackheath, suburb}`. -/
theorem claim_C7 (l : List ChildPlace) :
    (dedupe_and_sort l).Perm (firstOccurrences l) ∧
    List.Sorted childLe (dedupe_and_sort l) ∧
    (PLACE_RANK "suburb" = 1 ∧ PLACE_RANK "neighbourhood" = 2 ∧
      PLACE_RANK "quarter" = 3 ∧ PLACE_RANK "village" = 4 ∧
      PLACE_RANK "hamlet" = 5) ∧
    dedupe_and_sort [⟨"Blackheath", "suburb"⟩, ⟨"blackheath", "village"⟩] =
      [⟨"Blackheath", "suburb"⟩] :=
  ⟨dedupe_and_sort_perm l, dedupe_and_sort_sorted l,
    ⟨rfl, rfl, rfl, rfl, rfl⟩, by decide⟩

/-- C5: once steps 1-3 have failed, the resolver scores all original
candidates, keeps those with score ≥ 10, and resolves with the unique
passer, or with the top passer when the top strictly beats the runner-up;
otherwise the final step yields no resolution. -/
theorem claim_C5 (t : TownInput) (candidates : List Candidate)
    (ukMatches : List (Int × String))
    (h1 : (candidates.filter is_admin_rel).length ≠ 1)
    (h2 : resolveStep2 t (candidates.filter is_admin_rel) = none)
    (h3 : resolveStep3 ukMatches = none) :
    (∀ p, (sortByScoreDesc t candidates).filter (fun x => x.1 ≥ 10) = [p] →
      (resolve_town_no_guess t candidates ukMatches).1 = some p.2) ∧
    (∀ p q rest,
      (sortByScoreDesc t candidates).filter (fun x => x.1 ≥ 10) = p :: q :: rest →
      (p.1 > q.1 → (resolve_town_no_guess t candidates ukMatches).1 = some p.2) ∧
      (¬ p.1 > q.1 → (resolve_town_no_guess t candidates ukMatches).1 = none)) ∧
    ((sortByScoreDesc t candidates).filter (fun x => x.1 ≥ 10) = [] →
      (resolve_town_no_guess t candidates ukMatches).1 = none) := by
  have key : resolve_town_no_guess t candidates ukMatches =
      (match (sortByScoreDesc t candidates).filter (fun x => x.1 ≥ 10) with
        | [p] => (some p.2, candidates)
        | p :: q :: _ =>
          if p.1 > q.1 then (some p.2, candidates) else (none, candidates)
        | [] => (none, candidates)) := by
    simp only [resolve_town_no_guess]
    rw [if_neg h1, h2, h3]
  refine ⟨?_, ?_, ?_⟩
  · intro p hp
    rw [key, hp]
  · intro p q rest hpq
    rw [key, hpq]
    constructor
    · intro hgt
      simp [hgt]
    · intro hgt
      simp [hgt]
  · intro hnil
    rw [key, hnil]

/-- C5 witness: a single non-admin boundary candidate scoring exactly the
threshold 10 is resolved by the final step. -/
theorem claim_C5_witness :
    (resolve_town_no_guess ⟨"x", "", ""⟩
        [⟨"x", "relation", 1, "boundary", "z", 0, 0⟩] []).1 =
      some ⟨"x", "relation", 1, "boundary", "z", 0, 0⟩ :=
  (claim_C5 ⟨"x", "", ""⟩ [⟨"x", "relation", 1, "boundary", "z", 0, 0⟩] []
      (by decide) (by decide) (by decide)).1
    (10, ⟨"x", "relation", 1, "boundary", "z", 0, 0⟩) (by decide)

/-! ## Lemmas for the Overpass executor -/

/-- A fully failing endpoint pass returns no value, folds the recorded
errors into `last_err`, and makes one call per endpoint. -/
theorem tryEndpoints_allfail {α ε : Type} (resps : Nat → Except ε (HttpResp α ε)) :
    ∀ (l : List Nat) (le : Option (AttemptError ε)) (n : Nat),
    (∀ i ∈ l, attemptSucceeds (resps i) = false) →
    tryEndpoints resps l le n = (none, foldErrList resps le l, n + l.length)
  | [], le, n, _ => by simp [tryEndpoints, foldErrList]
  | i :: rest, le, n, h => by
    have hi : attemptSucceeds (resps i) = false := h i (List.mem_cons_self i rest)
    rw [tryEndpoints, if_neg (by simp [hi])]
    rw [tryEndpoints_allfail resps rest _ (n + 1)
      (fun j hj => h j (List.mem_cons_of_mem _ hj))]
    simp [foldErrList, Prod.mk.injEq]
    omega

/-- When every endpoint before `j` fails and `j` succeeds with `v`, the
pass returns `v` after `(number of failures) + 1` calls. -/
theorem tryEndpoints_first_success {α ε : Type} (resps : Nat → Except ε (HttpResp α ε))
    (j : Nat) (v : α) (hj : attemptSucceeds (resps j) = true)
    (hv : attemptValue (resps j) = some v) :
    ∀ (la lb : List Nat) (le : Option (AttemptError ε)) (n : Nat),
    (∀ i ∈ la, attemptSucceeds (resps i) = false) →
    tryEndpoints resps (la ++ j :: lb) le n =
      (some v, foldErrList resps le la, n + la.length + 1)
  | [], lb, le, n, _ => by
    rw [List.nil_append, tryEndpoints, if_pos (by simp [hj])]
    simp [foldErrList, hv]
  | i :: la', lb, le, n, h => by
    have hi : attemptSucceeds (resps i) = false := h i (List.mem_cons_self i la')
    rw [List.cons_append, tryEndpoints, if_neg (by simp [hi])]
    rw [tryEndpoints_first_success resps j v hj hv la' lb _ (n + 1)
      (fun x hx => h x (List.mem_cons_of_mem _ hx))]
    simp [foldErrList, Prod.mk.injEq]
    omega

/-- Folding with a function that ignores its list argument fixes the
accumulator. -/
theorem foldl_const_acc {γ δ : Type} (f : δ → γ → δ) (hf : ∀ x y, f x y = x) :
    ∀ (l : List γ) (a : δ), l.foldl f a = a
  | [], _ => rfl
  | x :: l, a => by rw [List.foldl_cons, hf, foldl_const_acc f hf l a]

/-- Folding over a flatMap is the nested fold. -/
theorem foldl_flatMap {β γ δ : Type} (g : γ → List β) (f : δ → β → δ) :
    ∀ (l : List γ) (a : δ),
    (l.flatMap g).foldl f a = l.foldl (fun acc x => (g x).foldl f acc) a
  | [], _ => rfl
  | x :: l, a => by
    rw [List.flatMap_cons, List.foldl_append, List.foldl_cons,
      foldl_flatMap g f l _]

/-- When every attempt in the remaining rounds fails, the loop raises and
`last_err` is the nested fold of the recorded errors. -/
theorem overpassLoop_allfail {α ε : Type} (resps : Nat → Nat → Except ε (HttpResp α ε))
    (numUrls : Nat) :
    ∀ (rounds roundIdx : Nat) (le : Option (AttemptError ε)) (count : Nat),
    (∀ r, r < rounds → ∀ i, i < numUrls →
      attemptSucceeds (resps (roundIdx + r) i) = false) →
    (overpassLoop resps numUrls rounds roundIdx le count).1 =
      .exhaustedRetries ((List.range rounds).foldl
        (fun acc r => foldErrList (resps (roundIdx + r)) acc (List.range numUrls)) le)
  | 0, roundIdx, le, count, _ => by simp [overpassLoop]
  | rounds + 1, roundIdx, le, count, h => by
    rw [overpassLoop, tryEndpoints_allfail (resps roundIdx) (List.range numUrls) le count
      (fun i hi => by simpa using h 0 (Nat.succ_pos _) i (List.mem_range.mp hi))]
    dsimp only
    by_cases h0 : numUrls = 0
    · subst h0
      rw [if_pos rfl]
      have hfix : ∀ (acc : Option (AttemptError ε)) (r : Nat),
          foldErrList (resps (roundIdx + r)) acc (List.range 0) = acc := fun _ _ => rfl
      simp only [foldErrList, List.range_zero, List.foldl_nil]
      rw [foldl_const_acc _ (fun x y => rfl) (List.range (rounds + 1)) le]
    · rw [if_neg h0]
      rw [overpassLoop_allfail resps numUrls rounds (roundIdx + 1) _ _
        (fun r hr i hi => by
          have := h (r + 1) (by omega) i hi
          simpa [Nat.add_assoc, Nat.add_comm 1 r] using this)]
      congr 1
      rw [List.range_succ_eq_map, List.foldl_cons, List.foldl_map]
      have h00 : roundIdx + 0 = roundIdx := rfl
      rw [h00]
      have hfun : (fun acc r => foldErrList (resps (roundIdx + Nat.succ r)) acc
            (List.range numUrls)) =
          fun acc r => foldErrList (resps (roundIdx + 1 + r)) acc (List.range numUrls) := by
        funext acc r
        have harg : roundIdx + Nat.succ r = roundIdx + 1 + r := by omega
        rw [harg]
      rw [hfun]

/-- C3: when every attempt on every endpoint fails in all six rounds, the
executor raises `ExhaustedRetries` carrying the last recorded error over
the whole round-major attempt sequence (no error is recorded for pure
rate-limit or transient-server statuses, matching lines 151-164, so the
carried value is `none` when only those occurred). -/
theorem claim_C3 {α ε : Type} (resps : Nat → Nat → Except ε (HttpResp α ε))
    (numUrls : Nat)
    (h : ∀ r, r < 6 → ∀ i, i < numUrls → attemptSucceeds (resps r i) = false) :
    overpass_post resps numUrls = .exhaustedRetries (lastErrSpec resps numUrls) := by
  unfold overpass_post overpassRun
  rw [overpassLoop_allfail resps numUrls 6 0 none 0
    (fun r hr i hi => by simpa using h r hr i hi)]
  congr 1
  unfold lastErrSpec attemptOrder
  rw [foldl_flatMap]
  apply List.foldl_ext
  intro acc r _
  rw [List.foldl_map]
  simp only [Nat.zero_add]
  rfl

/-- C3 witness: four endpoints answering 429 on every attempt exhaust all
six rounds; the carried diagnostic is `none` because rate-limit statuses
record no exception. -/
theorem claim_C3_witness :
    (∀ r, r < 6 → ∀ i, i < 4 →
      attemptSucceeds ((fun (_ _ : Nat) =>
        (Except.ok ⟨429, some 5, Except.error "overload"⟩ :
          Except String (HttpResp Nat String))) r i) = false) ∧
    overpass_post
        (fun (_ _ : Nat) =>
          (Except.ok ⟨429, some 5, Except.error "overload"⟩ :
            Except String (HttpResp Nat String))) 4 =
      .exhaustedRetries
        (lastErrSpec
          (fun (_ _ : Nat) =>
            (Except.ok ⟨429, some 5, Except.error "overload"⟩ :
              Except String (HttpResp Nat String))) 4) :=
  ⟨by decide, claim_C3 _ 4 (by decide)⟩

/-- The list `List.range n` splits at any `j < n` into the smaller range, `j`
itself, and a tail. -/
theorem range_split (j n : Nat) (h : j < n) :
    List.range n = List.range j ++ j :: ((List.range (n - j - 1)).map fun x => j + 1 + x) := by
  obtain ⟨m, rfl⟩ : ∃ m, n = j + (m + 1) := ⟨n - j - 1, by omega⟩
  have hm : j + (m + 1) - j - 1 = m := by omega
  rw [hm, List.range_add, List.range_succ_eq_map, List.map_cons, List.map_map]
  have h0 : j + 0 = j := rfl
  have hcomp : ((fun x => j + x) ∘ Nat.succ) = fun x => j + 1 + x := by
    funext x
    simp only [Function.comp_apply]
    omega
  rw [h0, hcomp]

/-- When the first parseable success of the whole run happens in round
`roundIdx + k` at endpoint `j0`, the loop returns its value after
`k * numUrls + j0 + 1` calls. -/
theorem overpassLoop_success {α ε : Type} (resps : Nat → Nat → Except ε (HttpResp α ε))
    (numUrls j0 : Nat) (v : α) (hj : j0 < numUrls) :
    ∀ (k rounds roundIdx : Nat) (le : Option (AttemptError ε)) (count : Nat),
    k < rounds →
    (∀ r, r < k → ∀ i, i < numUrls →
      attemptSucceeds (resps (roundIdx + r) i) = false) →
    (∀ i, i < j0 → attemptSucceeds (resps (roundIdx + k) i) = false) →
    attemptSucceeds (resps (roundIdx + k) j0) = true →
    attemptValue (resps (roundIdx + k) j0) = some v →
    overpassLoop resps numUrls rounds roundIdx le count =
      (.ok v, count + k * numUrls + j0 + 1)
  | 0, rounds, roundIdx, le, count, hk, _, hpre, hsucc, hval => by
    obtain ⟨rounds', rfl⟩ : ∃ r', rounds = r' + 1 := ⟨rounds - 1, by omega⟩
    rw [overpassLoop, range_split j0 numUrls hj,
      tryEndpoints_first_success (resps roundIdx) j0 v
        (by simpa using hsucc) (by simpa using hval)
        (List.range j0) _ le count
        (fun i hi => by simpa using hpre i (List.mem_range.mp hi))]
    dsimp only
    simp only [List.length_range]
    have harith : count + j0 + 1 = count + 0 * numUrls + j0 + 1 := by omega
    rw [harith]
  | k + 1, rounds, roundIdx, le, count, hk, hfail, hpre, hsucc, hval => by
    obtain ⟨rounds', rfl⟩ : ∃ r', rounds = r' + 1 := ⟨rounds - 1, by omega⟩
    rw [overpassLoop, tryEndpoints_allfail (resps roundIdx) (List.range numUrls) le count
      (fun i hi => by simpa using hfail 0 (Nat.succ_pos _) i (List.mem_range.mp hi))]
    dsimp only
    rw [if_neg (by omega)]
    rw [overpassLoop_success resps numUrls j0 v hj k rounds' (roundIdx + 1) _ _
      (by omega)
      (fun r hr i hi => by
        have := hfail (r + 1) (by omega) i hi
        simpa [Nat.add_assoc, Nat.add_comm 1 r] using this)
      (fun i hi => by
        have := hpre i hi
        simpa [Nat.add_assoc, Nat.add_comm 1 k] using this)
      (by
        have := hsucc
        simpa [Nat.add_assoc, Nat.add_comm 1 k] using this)
      (by
        have := hval
        simpa [Nat.add_assoc, Nat.add_comm 1 k] using this)]
    simp only [List.length_range, Prod.mk.injEq, true_and]
    have : (k + 1) * numUrls = numUrls + k * numUrls := by
      rw [Nat.succ_mul]
      omega
    omega

/-- C6: if the first success of the run happens in round `r0` (0-based) at
endpoint `j0` — every earlier attempt failing in any way, rate-limit and
transient-server errors included — the executor returns that parsed value
immediately, after exactly `r0 * N + j0 + 1` calls, which is at most
`(r0 + 1) * N`, i.e. `rounds_needed × N`. -/
theorem claim_C6 {α ε : Type} (resps : Nat → Nat → Except ε (HttpResp α ε))
    (numUrls r0 j0 : Nat) (v : α) (hr : r0 < 6) (hj : j0 < numUrls)
    (hfail : ∀ r, r < r0 → ∀ i, i < numUrls → attemptSucceeds (resps r i) = false)
    (hpre : ∀ i, i < j0 → attemptSucceeds (resps r0 i) = false)
    (hsucc : attemptSucceeds (resps r0 j0) = true)
    (hval : attemptValue (resps r0 j0) = some v) :
    overpassRun resps numUrls = (.ok v, r0 * numUrls + j0 + 1) ∧
    r0 * numUrls + j0 + 1 ≤ (r0 + 1) * numUrls := by
  constructor
  · unfold overpassRun
    rw [overpassLoop_success resps numUrls j0 v hj r0 6 0 none 0 hr
      (fun r hrk i hi => by simpa using hfail r hrk i hi)
      (fun i hi => by simpa using hpre i hi)
      (by simpa using hsucc)
      (by simpa using hval)]
    simp
  · have : (r0 + 1) * numUrls = r0 * numUrls + numUrls := by
      rw [Nat.succ_mul]
    omega

/-- C6 witness: three endpoints, rate-limited and overloaded until the
third endpoint of the second round succeeds; the run returns the parsed
value after 6 calls, within `2 × 3`. -/
theorem claim_C6_witness :
    overpassRun
        (fun (r i : Nat) =>
          if r = 1 ∧ i = 2 then
            (Except.ok ⟨200, none, Except.ok 42⟩ : Except String (HttpResp Nat String))
          else if i = 0 then Except.ok ⟨429, none, Except.error "rate"⟩
          else Except.ok ⟨503, none, Except.error "down"⟩) 3 =
      (.ok 42, 6) ∧ (6 : Nat) ≤ 2 * 3 := by
  constructor
  · have h := claim_C6
      (fun (r i : Nat) =>
        if r = 1 ∧ i = 2 then
          (Except.ok ⟨200, none, Except.ok 42⟩ : Except String (HttpResp Nat String))
        else if i = 0 then Except.ok ⟨429, none, Except.error "rate"⟩
        else Except.ok ⟨503, none, Except.error "down"⟩) 3 1 2 42
      (by omega) (by omega) (by decide) (by decide) (by decide) (by decide)
    exact h.1
  · omega

/-! ## Lemmas for the no-guess tie property -/

/-- Counting over a list splits along any Boolean filter. -/
theorem countP_filter_split {γ : Type} (p d : γ → Bool) :
    ∀ l : List γ, l.countP p =
      (l.filter d).countP p + (l.filter fun x => !d x).countP p
  | [] => rfl
  | x :: l => by
    by_cases hx : d x = true
    · rw [List.countP_cons, List.filter_cons_of_pos hx,
        List.filter_cons_of_neg (by simp [hx]), List.countP_cons,
        countP_filter_split p d l]
      omega
    · rw [List.countP_cons, List.filter_cons_of_neg hx,
        List.filter_cons_of_pos (by simp [hx]), List.countP_cons,
        countP_filter_split p d l]
      omega

/-- When the two top scores over all candidates are equal, the score
tie-break over the boundary-filtered candidates (step 2) cannot fire: a
strict admin winner would score at least 15, strictly above every other
candidate (admins are capped below it by the strict comparison,
non-admins by the 14 bound), so the overall maximum could not be attained
twice. -/
theorem resolveStep2_none_of_top_two_equal (t : TownInput)
    (candidates : List Candidate) (p q : Int × Candidate)
    (rest : List (Int × Candidate))
    (hsort : sortByScoreDesc t candidates = p :: q :: rest)
    (heq : p.1 = q.1) :
    resolveStep2 t (candidates.filter is_admin_rel) = none := by
  set m := p.1 with hm
  have hperm : (sortByScoreDesc t candidates).Perm
      (candidates.map fun c => (score_candidate c t, c)) :=
    List.perm_insertionSort _ _
  have hsorted : List.Sorted scoreGe (p :: q :: rest) := by
    rw [← hsort]; exact List.sorted_insertionSort scoreGe _
  have hmax : ∀ x ∈ candidates.map (fun c => (score_candidate c t, c)), x.1 ≤ m := by
    intro x hx
    have hx' : x ∈ p :: q :: rest := by
      rw [← hsort]; exact hperm.mem_iff.mpr hx
    rcases List.mem_cons.mp hx' with rfl | hx''
    · exact le_refl _
    · exact List.rel_of_sorted_cons hsorted x hx''
  have hcount2 : 2 ≤ (candidates.map fun c => (score_candidate c t, c)).countP
      fun x => decide (x.1 = m) := by
    have hpc := List.Perm.countP_eq (fun x => decide (x.1 = m)) hperm
    rw [hsort] at hpc
    have hp : (decide (p.1 = m)) = true := by simp [hm]
    have hq : (decide (q.1 = m)) = true := by simp [← heq]
    rw [← hpc, List.countP_cons, List.countP_cons, if_pos hp, if_pos hq]
    omega
  unfold resolveStep2
  rcases hsa : sortByScoreDesc t (candidates.filter is_admin_rel) with _ | ⟨a, tl⟩
  · split_ifs <;> rfl
  rcases tl with _ | ⟨b, rest'⟩
  · split_ifs <;> rfl
  by_cases hab : a.1 > b.1
  · exfalso
    have hpermA : (sortByScoreDesc t (candidates.filter is_admin_rel)).Perm
        ((candidates.filter is_admin_rel).map fun c => (score_candidate c t, c)) :=
      List.perm_insertionSort _ _
    rw [hsa] at hpermA
    have hsortedA : List.Sorted scoreGe (a :: b :: rest') := by
      rw [← hsa]; exact List.sorted_insertionSort scoreGe _
    have hbmem : b ∈ (candidates.filter is_admin_rel).map
        fun c => (score_candidate c t, c) :=
      hpermA.mem_iff.mp (by simp)
    obtain ⟨cb, hcb, rfl⟩ := List.mem_map.mp hbmem
    have hb14 : 14 ≤ score_candidate cb t :=
      admin_score_ge cb t (List.of_mem_filter hcb)
    have hamem : a ∈ (candidates.filter is_admin_rel).map
        fun c => (score_candidate c t, c) :=
      hpermA.mem_iff.mp (by simp)
    obtain ⟨ca, hca, rfl⟩ := List.mem_map.mp hamem
    have haall : (score_candidate ca t, ca) ∈
        candidates.map fun c => (score_candidate c t, c) :=
      List.mem_map.mpr ⟨ca, List.mem_of_mem_filter hca, rfl⟩
    have ham : score_candidate ca t ≤ m := hmax _ haall
    have hab' : score_candidate cb t < score_candidate ca t := hab
    have h15 : 15 ≤ m := by omega
    have hmapAll : (candidates.map fun c => (score_candidate c t, c)).countP
        (fun x => decide (x.1 = m)) =
        candidates.countP fun c => decide (score_candidate c t = m) := by
      rw [List.countP_map]
      rfl
    have hnon : ((candidates.filter fun c => !is_admin_rel c).countP
        fun c => decide (score_candidate c t = m)) = 0 := by
      rw [List.countP_eq_zero]
      intro c hc
      have hfalse : is_admin_rel c = false := by
        have := List.of_mem_filter hc
        simpa using this
      have hle := nonadmin_score_le c t hfalse
      simp only [decide_eq_true_eq]
      omega
    have hadm : ((candidates.filter is_admin_rel).countP
        fun c => decide (score_candidate c t = m)) ≤ 1 := by
      have hmapA : (((candidates.filter is_admin_rel).map
          fun c => (score_candidate c t, c)).countP fun x => decide (x.1 = m)) =
          (candidates.filter is_admin_rel).countP
            fun c => decide (score_candidate c t = m) := by
        rw [List.countP_map]
        rfl
      rw [← hmapA, ← List.Perm.countP_eq _ hpermA]
      have hrest0 : rest'.countP (fun x => decide (x.1 = m)) = 0 := by
        rw [List.countP_eq_zero]
        intro x hx
        have hxb : x.1 ≤ (score_candidate cb t, cb).1 :=
          List.rel_of_sorted_cons hsortedA.of_cons x hx
        have hxb' : x.1 ≤ score_candidate cb t := hxb
        simp only [decide_eq_true_eq]
        omega
      rw [List.countP_cons, List.countP_cons, hrest0]
      have hPb : (decide ((score_candidate cb t, cb).1 = m)) = false := by
        simp only [decide_eq_false_iff_not]
        show ¬ score_candidate cb t = m
        omega
      rw [hPb, if_neg Bool.false_ne_true]
      split_ifs <;> omega
    have hsplit := countP_filter_split
      (fun c : Candidate => decide (score_candidate c t = m)) is_admin_rel candidates
    rw [hmapAll] at hcount2
    rw [hsplit, hnon] at hcount2
    omega
  · split_ifs with h₁
    · show (if a.1 > b.1 then some a.2 else none) = none
      exact if_neg hab
    · rfl

/-- C1 counterexample: a candidate list whose two top scores are both 14
(one boundary/administrative relation with a bare label, one
non-boundary-class relation whose label matches every request field) is
still resolved, because the unique-boundary-filter step fires before any
score is consulted.  The claim "equal top scores always yield NeedsReview"
is therefore false as stated. -/
theorem claim_C1_counterexample :
    ((sortByScoreDesc ⟨"a", "b", "c"⟩
        [⟨"", "relation", 1, "boundary", "administrative", 0, 0⟩,
         ⟨"a b c borough", "relation", 2, "x", "administrative", 0, 0⟩]).map Prod.fst =
      [14, 14]) ∧
    (resolve_town_no_guess ⟨"a", "b", "c"⟩
        [⟨"", "relation", 1, "boundary", "administrative", 0, 0⟩,
         ⟨"a b c borough", "relation", 2, "x", "administrative", 0, 0⟩] []).1 =
      some ⟨"", "relation", 1, "boundary", "administrative", 0, 0⟩ :=
  ⟨by decide, by decide⟩

/-- C1 amended: when the two highest scores are equal, neither score-based
step (2 or 4) can resolve; so unless the boundary filter leaves exactly
one candidate (step 1) or the Overpass fallback returns exactly one match
(step 3), the resolver returns NeedsReview. -/
theorem claim_C1 (t : TownInput) (candidates : List Candidate)
    (ukMatches : List (Int × String)) (p q : Int × Candidate)
    (rest : List (Int × Candidate))
    (hsort : sortByScoreDesc t candidates = p :: q :: rest)
    (heq : p.1 = q.1)
    (h1 : (candidates.filter is_admin_rel).length ≠ 1)
    (huk : ukMatches.length ≠ 1) :
    (resolve_town_no_guess t candidates ukMatches).1 = none := by
  have hstep2 := resolveStep2_none_of_top_two_equal t candidates p q rest hsort heq
  have hstep3 : resolveStep3 ukMatches = none := by
    unfold resolveStep3 uniqueUkMatch
    rcases ukMatches with _ | ⟨x, _ | ⟨y, tl⟩⟩
    · split_ifs <;> rfl
    · simp at huk
    · split_ifs <;> rfl
  have hsorted : List.Sorted scoreGe (p :: q :: rest) := by
    rw [← hsort]; exact List.sorted_insertionSort scoreGe _
  simp only [resolve_town_no_guess]
  rw [if_neg h1, hstep2, hstep3, hsort]
  by_cases hp10 : p.1 ≥ 10
  · rw [List.filter_cons_of_pos (by simpa using hp10),
      List.filter_cons_of_pos (by simp only [decide_eq_true_eq]; omega)]
    dsimp only
    rw [if_neg (by omega)]
  · have hnil : (p :: q :: rest).filter (fun x => decide (x.1 ≥ 10)) = [] := by
      rw [List.filter_eq_nil_iff]
      intro x hx
      have hxle : x.1 ≤ p.1 := by
        rcases List.mem_cons.mp hx with rfl | hx'
        · exact le_refl _
        · exact List.rel_of_sorted_cons hsorted x hx'
      simp only [decide_eq_true_eq]
      omega
    rw [hnil]

/-- C1 amended witness: two identical non-boundary candidates tie at the
top and nothing else applies, so the resolver defers to review. -/
theorem claim_C1_witness :
    (resolve_town_no_guess ⟨"x", "", ""⟩
        [⟨"", "way", 1, "a", "b", 0, 0⟩, ⟨"", "way", 1, "a", "b", 0, 0⟩] []).1 =
      none :=
  claim_C1 ⟨"x", "", ""⟩
    [⟨"", "way", 1, "a", "b", 0, 0⟩, ⟨"", "way", 1, "a", "b", 0, 0⟩] []
    (-5, ⟨"", "way", 1, "a", "b", 0, 0⟩) (-5, ⟨"", "way", 1, "a", "b", 0, 0⟩) []
    (by decide) (by decide) (by decide) (by decide)

/-- C8: the dedupe-and-sort step is idempotent. -/
theorem claim_C8 (l : List ChildPlace) :
    dedupe_and_sort (dedupe_and_sort l) = dedupe_and_sort l := by
  have hnd : (dedupe_and_sort l).Pairwise fun a b => childKey a ≠ childKey b :=
    ((dedupe_and_sort_perm l).pairwise_iff fun h => h.symm).mpr
      (firstOccurrences_pairwise l)
  show ((dedupeLoop (dedupe_and_sort l) []).insertionSort childLe) = dedupe_and_sort l
  rw [dedupeLoop_eq_self _ _ hnd (by simp)]
  exact (dedupe_and_sort_sorted l).insertionSort_eq

end LocalAreas
